import Mathlib

/-!
Verification of the region-file storage engine in `src/world/anvil.py`
(module `world.anvil` of the pycraft repository).

The Python module is shallowly embedded:
* bytes on disk are `List Nat` values (each entry a byte value);
* the backing file is a `PFile`: a length together with a byte-at-position
  function (Python file reads past the end return fewer bytes, which
  `PFile.readAt` reproduces by truncating);
* exceptions raised by the Python code become `Except.error` values carrying
  the exception rendered as a string;
* the external collaborators (`zlib.compress`/`decompress`,
  `gzip.decompress`, `nbt.dump`/`nbt.load`) are taken as function parameters,
  since the spec scopes them out as opaque contracts.

Every definition is translated from the source file; comments on each
definition cite the corresponding lines of `src/world/anvil.py`.
-/

/-- Big-endian interpretation of a byte string, as in Python's
`int.from_bytes(bs, 'big')` (the empty string decodes to 0). -/
def fromBytesBE (l : List Nat) : Nat :=
  l.foldl (fun acc b => acc * 256 + b) 0

/-- Big-endian fixed-width encoding of a natural number, as in Python's
`n.to_bytes(len, 'big')` for `n < 256 ^ len`. -/
def toBytesBE (n len : Nat) : List Nat :=
  (List.range len).map (fun i => n / 256 ^ (len - 1 - i) % 256)

/-- `Sector` from anvil.py lines 15-56: a run of `count` 4096-byte pages
starting at page `offset`. -/
structure Sector where
  offset : Nat
  count : Nat
deriving DecidableEq, Repr

/-- `Sector.end` (line 22; `end` is a Lean keyword): one past the last page. -/
def Sector.end' (s : Sector) : Nat := s.offset + s.count

/-- `Sector.size` (line 26). -/
def Sector.size (s : Sector) : Nat := s.count * 4096

/-- `Sector.file_offset` (line 30). -/
def Sector.file_offset (s : Sector) : Nat := s.offset * 4096

/-- `Sector.__lt__` (line 33): `(self.offset + self.count) <= other.offset`. -/
def Sector.lt (a b : Sector) : Bool :=
  decide (a.offset + a.count ≤ b.offset)

/-- `Sector.__gt__` (line 36): `self.offset >= (other.offset + other.count)`. -/
def Sector.gt (a b : Sector) : Bool :=
  decide (b.offset + b.count ≤ a.offset)

/-- `Sector.intersects` (lines 42-47).  The source is a cascade of two `if`s
each returning `True`, falling through to `False`; that is the boolean
disjunction of the two conditions. -/
def Sector.intersects (a b : Sector) : Bool :=
  (decide (a.offset ≤ b.offset) && decide (b.offset < a.offset + a.count)) ||
  (decide (b.offset ≤ a.offset) && decide (a.offset < b.offset + b.count))

/-- `Sector.to_bytes` (lines 49-53): 3 bytes of offset then 1 byte of count,
big-endian.  Python's `int.to_bytes(width, 'big', signed=False)` raises
`OverflowError` when the integer does not fit in `width` bytes; that fallible
outcome is rendered as `none`. -/
def Sector.to_bytes (s : Sector) : Option (List Nat) :=
  if s.offset < 2 ^ 24 ∧ s.count < 2 ^ 8 then
    some (toBytesBE s.offset 3 ++ toBytesBE s.count 1)
  else none

/-- Decoding of one 4-byte table entry, as performed inline by
`RegionFile.__init__` (lines 78-79): 3 bytes big-endian offset, 1 byte count. -/
def sectorOfBytes (bs : List Nat) : Sector :=
  { offset := fromBytesBE (bs.take 3), count := fromBytesBE ((bs.drop 3).take 1) }

/-- The backing file: a byte size plus the byte stored at each position.
Positions at or past `size` are not part of the file. -/
structure PFile where
  size : Nat
  data : Nat → Nat

/-- `f.seek(pos); f.read(n)`: the bytes at positions `pos..pos+n-1` that lie
within the file (a read at or past EOF returns fewer than `n` bytes, exactly
as in Python). -/
def PFile.readAt (f : PFile) (pos n : Nat) : List Nat :=
  (List.range n).filterMap (fun j => if pos + j < f.size then some (f.data (pos + j)) else none)

/-- `f.seek(pos); f.write(bs)` on a writable handle: bytes of `bs` land at
positions `pos..`, any gap between the old end of file and `pos` reads back
as zero bytes (sparse-file semantics of seeking past EOF before writing). -/
def PFile.writeAt (f : PFile) (pos : Nat) (bs : List Nat) : PFile :=
  { size := max f.size (pos + bs.length),
    data := fun i =>
      if pos ≤ i ∧ i < pos + bs.length then bs.getD (i - pos) 0
      else if i < f.size then f.data i else 0 }

/-- `open(filename, 'wb')` truncates the file to zero length. -/
def PFile.truncate (_f : PFile) : PFile := { size := 0, data := fun _ => 0 }

/-- A file of `n` zero bytes (e.g. a freshly created region file). -/
def zeroFile (n : Nat) : PFile := { size := n, data := fun _ => 0 }

/-- `bisect.insort(a, x)` with `Sector.__lt__` as the comparison, on a list
kept sorted (the only situation in which Python's `bisect` documents its
behaviour): insert `x` before the first element `y` with `x < y`, i.e. after
every run of elements not greater than `x`.  On a sorted list the binary
search of `bisect` lands at exactly this position. -/
def insort (x : Sector) : List Sector → List Sector
  | [] => [x]
  | y :: ys => if x.lt y then x :: y :: ys else y :: insort x ys

/-- The in-memory state of a `RegionFile` object (lines 58-65): the backing
file, the 1024-entry `chunks` array of optional sectors, and the sorted
`sectors` list used by the allocator. -/
structure RegionState where
  file : PFile
  chunks : List (Option Sector)
  sectors : List Sector

namespace RegionFile

/-- The two reads of one header entry in `__init__` (lines 78-79): after
`f.seek(0)` and `i` previous 4-byte entries, `f.read(3)` reads positions
`4*i..4*i+2` and `f.read(1)` reads position `4*i+3`. -/
def readEntry (f : PFile) (i : Nat) : Nat × Nat :=
  (fromBytesBE (f.readAt (4 * i) 3), fromBytesBE (f.readAt (4 * i + 3) 1))

/-- The per-slot decision of `__init__` (lines 80-85): populate the slot only
when `offset >= 2 and sector_count > 0`, else leave it `None`. -/
def slotOf (f : PFile) (i : Nat) : Option Sector :=
  if 2 ≤ (readEntry f i).1 ∧ 0 < (readEntry f i).2 then
    some ⟨(readEntry f i).1, (readEntry f i).2⟩
  else none

/-- The `sectors` list built by the `__init__` loop (lines 76-83): seeded with
`Sector(0, 2)`, then each populated slot's sector is `bisect.insort`-ed in
slot order. -/
def sectorsOf (f : PFile) : List Sector :=
  (List.range 1024).foldl
    (fun acc i =>
      match slotOf f i with
      | some s => insort s acc
      | none => acc)
    [⟨0, 2⟩]

/-- The in-memory state produced by a successful `__init__` on file `f`. -/
def stateOf (f : PFile) : RegionState :=
  { file := f, chunks := (List.range 1024).map (slotOf f), sectors := sectorsOf f }

/-- `RegionFile.__init__` (lines 62-85) on an existing regular file: raise
`Exception('Invalid region file!')` when `size < 8192 or (size % 4096) != 0`
(line 73-74), otherwise parse the 1024 header entries. -/
def init (f : PFile) : Except String RegionState :=
  if f.size < 8192 ∨ f.size % 4096 ≠ 0 then Except.error "Invalid region file!"
  else Except.ok (stateOf f)

/-- The gap scan of `get_free` (lines 157-163): for each adjacent pair in
`sectors`, if `sectors[i+1].offset - sectors[i].end >= sector_count` return a
new sector at `sectors[i].end`.  Python subtraction can go negative on an
unsorted list, hence the comparison over `Int`. -/
def findGap (cnt : Nat) : List Sector → Option Sector
  | a :: b :: rest =>
    if (cnt : Int) ≤ (b.offset : Int) - ((a.offset : Int) + (a.count : Int)) then
      some ⟨a.offset + a.count, cnt⟩
    else findGap cnt (b :: rest)
  | _ => none

/-- `RegionFile.get_free` (lines 155-169), with the mutation of
`self.sectors` rendered as the second component of the result.
`sector_count = math.ceil(size_in_bytes / 4096)` is `(n + 4095) / 4096` on
naturals.  When no gap fits, the new sector is appended after
`self.sectors[-1]`; indexing an empty list would raise `IndexError`, rendered
as `none`. -/
def get_free (sectors : List Sector) (size_in_bytes : Nat) (insert : Bool) :
    Option (Sector × List Sector) :=
  let cnt := (size_in_bytes + 4095) / 4096
  match findGap cnt sectors with
  | some s => some (s, if insert then insort s sectors else sectors)
  | none =>
    match sectors.getLast? with
    | none => none
    | some last =>
      let s : Sector := ⟨last.offset + last.count, cnt⟩
      some (s, if insert then insort s sectors else sectors)

/-- `RegionFile.delete_sector` (lines 104-126).  The slot-range check
`if 0 <= index < 1024` has no `else`: an out-of-range index falls through and
the call returns normally.  For an in-range index the code evaluates
`sect != None`; when the slot holds a `Sector`, Python dispatches that to
`Sector.__eq__(sect, None)` (line 39-40), which reads `None.offset` and so
raises `AttributeError` before any file operation happens.  (Had the
comparison worked, the code would next write to a file handle opened `'rb'`,
raising `io.UnsupportedOperation`, and then reference the undefined variable
`ind` at line 121, raising `NameError`.)  When the slot is empty,
`None != None` is `False` and the call is a no-op. -/
def delete_sector (st : RegionState) (index : Int) (_zero_data : Bool) :
    Except String RegionState :=
  if 0 ≤ index ∧ index < 1024 then
    match st.chunks.getD index.toNat none with
    | none => Except.ok st
    | some _ => Except.error "AttributeError: 'NoneType' object has no attribute 'offset'"
  else Except.ok st

/-- The body of `RegionFile.write_chunk_tag` (lines 176-193) after
`chunk_data = zlib.compress(nbt.dump(chunk_tag))` has been computed.
Line 181 evaluates `self.chunks[ind] != None`; on an occupied slot this
dispatches to `Sector.__eq__(sector, None)` and raises `AttributeError`
(see `delete_sector`).  On an empty slot, `get_free` runs (inserting the new
sector into `self.sectors`), the file is opened `'wb'` (truncated) and seeked,
and then line 191 evaluates `(len(chunk_data) + 1).to_bytes(4, 'big', False)`:
`signed` is a keyword-only parameter of `int.to_bytes`, so passing it
positionally raises `TypeError` before any byte is written. -/
def write_chunk_data (st : RegionState) (x z : Int) (chunk_data : List Nat) :
    Except String RegionState :=
  let ind : Nat := ((x % 32) + (z % 32) * 32).toNat
  match st.chunks.getD ind none with
  | some _ => Except.error "AttributeError: 'NoneType' object has no attribute 'offset'"
  | none =>
    match get_free st.sectors (chunk_data.length + 5) true with
    | none => Except.error "IndexError: list index out of range"
    | some _ =>
      Except.error "TypeError: to_bytes() takes at most 2 positional arguments (3 given)"

/-- Hypothetical lenient reading of the same write path (lines 183-193),
used to show the round-trip failure does not hinge on the `to_bytes` calling
convention: suppose line 191 had passed `signed=False` by keyword, so the
writes execute.  Then the `'wb'` open truncates the file, and the code writes
at `free.offset * 4096` the 4-byte length `len(chunk_data) + 1`, the tag byte
`2`, and `size - data_size` zero bytes of padding — the compressed payload
itself is never written, and neither the on-disk location table, the
timestamp table, nor the in-memory `chunks` array is updated. -/
def write_chunk_data_lenient (st : RegionState) (x z : Int) (chunk_data : List Nat) :
    Except String RegionState :=
  let ind : Nat := ((x % 32) + (z % 32) * 32).toNat
  (if (st.chunks.getD ind none).isSome then delete_sector st ind false
   else Except.ok st).bind fun st1 =>
    match get_free st1.sectors (chunk_data.length + 5) true with
    | none => Except.error "IndexError: list index out of range"
    | some (free, sectors1) =>
      let offset := free.offset * 4096
      let size := free.count * 4096
      let data_size := chunk_data.length + 5
      let pad_bytes := size - data_size
      let f1 := (PFile.truncate st1.file).writeAt offset
        (toBytesBE (chunk_data.length + 1) 4 ++ [2] ++ List.replicate pad_bytes 0)
      Except.ok { st1 with file := f1, sectors := sectors1 }

/-- `RegionFile.write_chunk_tag` (lines 176-193): serialize with the external
`nbt.dump` contract, compress with `zlib.compress` (both passed in as opaque
functions), then run the write path. -/
def write_chunk_tag {Doc : Type} (compress : List Nat → List Nat) (dump : Doc → List Nat)
    (st : RegionState) (x z : Int) (chunk_tag : Doc) : Except String RegionState :=
  write_chunk_data st x z (compress (dump chunk_tag))

/-- `RegionFile.read_chunk_raw` (lines 221-241).  `zlibD` and `gzipD` are
`zlib.decompress` / `gzip.decompress` (fallible, hence `Except`-valued).
A zero table offset returns `None` (absent).  The compression tag selects a
codec; a tag other than 1, 2, 3 matches no branch and the function falls off
the end, returning `None`.  (When `data_length = 0`, Python would read
`data_length - 1 = -1`, meaning "rest of file"; natural subtraction reads 0
bytes instead — no claim exercises a stored record with a zero length field.) -/
def read_chunk_raw (zlibD gzipD : List Nat → Except String (List Nat))
    (st : RegionState) (x z : Int) : Except String (Option (List Nat)) :=
  let ind : Nat := ((x % 32) + (z % 32) * 32).toNat
  let chunk_offset := fromBytesBE (st.file.readAt (ind * 4) 3)
  if chunk_offset = 0 then Except.ok none
  else
    let data_length := fromBytesBE (st.file.readAt (chunk_offset * 4096) 4)
    let compression_type := fromBytesBE (st.file.readAt (chunk_offset * 4096 + 4) 1)
    let payload := st.file.readAt (chunk_offset * 4096 + 5) (data_length - 1)
    if compression_type = 2 then (zlibD payload).map some
    else if compression_type = 1 then (gzipD payload).map some
    else if compression_type = 3 then Except.ok (some payload)
    else Except.ok none

/-- `RegionFile.read_chunk_tag` (lines 196-219): as `read_chunk_raw` but the
decompressed bytes are parsed by the external `nbt.load` contract. -/
def read_chunk_tag {Doc : Type} (zlibD gzipD : List Nat → Except String (List Nat))
    (load : List Nat → Except String Doc) (st : RegionState) (x z : Int) :
    Except String (Option Doc) :=
  let ind : Nat := ((x % 32) + (z % 32) * 32).toNat
  let chunk_offset := fromBytesBE (st.file.readAt (ind * 4) 3)
  if chunk_offset = 0 then Except.ok none
  else
    let data_length := fromBytesBE (st.file.readAt (chunk_offset * 4096) 4)
    let compression_type := fromBytesBE (st.file.readAt (chunk_offset * 4096 + 4) 1)
    let payload := st.file.readAt (chunk_offset * 4096 + 5) (data_length - 1)
    if compression_type = 2 then (zlibD payload).bind fun b => (load b).map some
    else if compression_type = 1 then (gzipD payload).bind fun b => (load b).map some
    else if compression_type = 3 then (load payload).map some
    else Except.ok none

/-- `RegionFile.has_chunk` (lines 243-249): read only the 3 offset bytes of
the slot's table entry and report presence iff they are nonzero. -/
def has_chunk (st : RegionState) (x z : Int) : Bool :=
  let ind : Nat := ((x % 32) + (z % 32) * 32).toNat
  fromBytesBE (st.file.readAt (ind * 4) 3) != 0

end RegionFile

/-- The sortedness relation maintained on `sectors`: each sector ends at or
before the next begins (`Sector.__lt__` at the `Prop` level). -/
def sectBefore (a b : Sector) : Prop := a.offset + a.count ≤ b.offset

/-- The allocator's state invariant: `sectors` starts with the synthetic
header sector `Sector(0, 2)`, is sorted with pairwise-disjoint adjacent
members, and every member occupies at least one page.  It holds for the state
produced by opening a well-formed file and is preserved by every allocation. -/
def AllocInv (secs : List Sector) : Prop :=
  secs.head? = some ⟨0, 2⟩ ∧ List.Chain' sectBefore secs ∧ ∀ t ∈ secs, 0 < t.count

/-- The first-fit offset computed by the `get_free` scan (derived form of
lines 157-169 used to state its correctness): walk the sorted list and place
the request in the first sufficient gap, else after the last sector. -/
def firstFit (cnt : Nat) (a : Sector) : List Sector → Nat
  | [] => a.offset + a.count
  | b :: rest =>
    if (cnt : Int) ≤ (b.offset : Int) - ((a.offset : Int) + (a.count : Int)) then
      a.offset + a.count
    else firstFit cnt b rest

/-- A 12288-byte region file whose slot-0 entry is `Sector(2, 1)`
(offset bytes `00 00 02`, count byte `01`), all other bytes zero. -/
def fOcc : PFile :=
  { size := 12288, data := fun i => if i = 2 then 2 else if i = 3 then 1 else 0 }

/-- An 8192-byte region file whose slot-0 entry has offset 1 and count 1
(offset bytes `00 00 01`, count byte `01`), all other bytes zero. -/
def fOff1 : PFile :=
  { size := 8192, data := fun i => if i = 2 then 1 else if i = 3 then 1 else 0 }

/-- An 8192-byte region file whose slot-0 entry has offset 2 and count 0,
all other bytes zero. -/
def fCnt0 : PFile :=
  { size := 8192, data := fun i => if i = 2 then 2 else 0 }

/-- A 12288-byte region file with slot 0 at `Sector(2, 1)` and a stored
record at byte 8192 whose length field is 2, whose compression tag is 4
(unrecognized), and whose single payload byte is 9. -/
def fTag4 : PFile :=
  { size := 12288,
    data := fun i =>
      if i = 2 then 2 else if i = 3 then 1 else
      if i = 8195 then 2 else if i = 8196 then 4 else if i = 8197 then 9 else 0 }

set_option maxRecDepth 100000

lemma insort_mem (x t : Sector) : ∀ l : List Sector, t ∈ insort x l ↔ t = x ∨ t ∈ l := by
  intro l
  induction l with
  | nil => simp [insort]
  | cons y ys ih =>
    rw [insort]
    split
    · simp [List.mem_cons]
    · simp only [List.mem_cons, ih]
      tauto

lemma mem_foldl_slot (f : PFile) (x : Sector) :
    ∀ (l : List Nat) (acc : List Sector),
      (x ∈ l.foldl (fun acc i =>
        match RegionFile.slotOf f i with
        | some s => insort s acc
        | none => acc) acc) ↔ x ∈ acc ∨ ∃ i ∈ l, RegionFile.slotOf f i = some x := by
  intro l
  induction l with
  | nil => intro acc; simp
  | cons j l' ih =>
    intro acc
    rw [List.foldl_cons]
    cases hj : RegionFile.slotOf f j with
    | none =>
      simp only [hj]
      rw [ih]
      constructor
      · rintro (h | ⟨i, hi, hs⟩)
        · exact Or.inl h
        · exact Or.inr ⟨i, List.mem_cons_of_mem _ hi, hs⟩
      · rintro (h | ⟨i, hi, hs⟩)
        · exact Or.inl h
        · rcases List.mem_cons.mp hi with rfl | hi'
          · rw [hj] at hs; cases hs
          · exact Or.inr ⟨i, hi', hs⟩
    | some s =>
      simp only [hj]
      rw [ih]
      constructor
      · rintro (h | ⟨i, hi, hs⟩)
        · rcases (insort_mem s x acc).mp h with rfl | h'
          · exact Or.inr ⟨j, List.mem_cons_self _ _, hj⟩
          · exact Or.inl h'
        · exact Or.inr ⟨i, List.mem_cons_of_mem _ hi, hs⟩
      · rintro (h | ⟨i, hi, hs⟩)
        · exact Or.inl ((insort_mem s x acc).mpr (Or.inr h))
        · rcases List.mem_cons.mp hi with rfl | hi'
          · rw [hj] at hs
            injection hs with hsx
            exact Or.inl ((insort_mem s x acc).mpr (Or.inl hsx.symm))
          · exact Or.inr ⟨i, hi', hs⟩

/-- C8: for all (offset, count) with 0 <= offset < 2^24 and 0 < count < 256,
encoding Sector(offset, count) to its 4-byte big-endian form (3 bytes offset,
1 byte count, as in `Sector.to_bytes`) and decoding those 4 bytes back (as the
header parser of `__init__` does) yields a sector equal to the original. -/
theorem sector_bytes_roundtrip (offset count : Nat) (h1 : offset < 2 ^ 24)
    (h2 : 0 < count) (h3 : count < 2 ^ 8) :
    ∃ bs, (Sector.mk offset count).to_bytes = some bs ∧
      sectorOfBytes bs = Sector.mk offset count := by
  have e1 : (2 : Nat) ^ 24 = 16777216 := by norm_num
  have e2 : (2 : Nat) ^ 8 = 256 := by norm_num
  have h1' : offset < 16777216 := e1 ▸ h1
  have h3' : count < 256 := e2 ▸ h3
  refine ⟨toBytesBE offset 3 ++ toBytesBE count 1, ?_, ?_⟩
  · rw [Sector.to_bytes, if_pos ⟨h1, h3⟩]
  · have hb : toBytesBE offset 3 ++ toBytesBE count 1 =
        [offset / 65536 % 256, offset / 256 % 256, offset / 1 % 256, count / 1 % 256] := rfl
    rw [hb]
    unfold sectorOfBytes
    simp only [List.take, List.drop, fromBytesBE, List.foldl]
    rw [Sector.mk.injEq]
    constructor <;> omega

/-- Witness for C8 at offset 300, count 2. -/
theorem sector_bytes_roundtrip_witness :
    (300 < 2 ^ 24 ∧ 0 < 2 ∧ 2 < 2 ^ 8) ∧
    ∃ bs, (Sector.mk 300 2).to_bytes = some bs ∧ sectorOfBytes bs = Sector.mk 300 2 :=
  ⟨by norm_num, sector_bytes_roundtrip 300 2 (by norm_num) (by norm_num) (by norm_num)⟩

/-- C9: encoding a sector whose offset is >= 2^24 or whose count is >= 256
fails loudly (Python raises OverflowError from `int.to_bytes`, modelled as
`none`); the value is never silently truncated into the field. -/
theorem sector_to_bytes_overflow (s : Sector) (h : 2 ^ 24 ≤ s.offset ∨ 2 ^ 8 ≤ s.count) :
    s.to_bytes = none := by
  have e1 : (2 : Nat) ^ 24 = 16777216 := by norm_num
  have e2 : (2 : Nat) ^ 8 = 256 := by norm_num
  rw [e1, e2] at h
  rw [Sector.to_bytes, if_neg]
  rw [e1, e2]
  omega

/-- Witness for C9 at Sector(2^24, 1). -/
theorem sector_to_bytes_overflow_witness :
    (2 ^ 24 ≤ (Sector.mk (2 ^ 24) 1).offset ∨ 2 ^ 8 ≤ (Sector.mk (2 ^ 24) 1).count) ∧
    (Sector.mk (2 ^ 24) 1).to_bytes = none :=
  ⟨Or.inl (Nat.le_refl _), sector_to_bytes_overflow _ (Or.inl (Nat.le_refl _))⟩

/-- C3 (amended): opening a file whose size is below 8192 or not a multiple
of 4096 fails with the error `Invalid region file!` (a fixed message that does
not name the actual size, unlike the claim states); opening a file whose size
is a multiple of 4096 and at least 8192 succeeds without error. -/
theorem init_size_validation :
    (∀ f : PFile, f.size < 8192 ∨ f.size % 4096 ≠ 0 →
      RegionFile.init f = Except.error "Invalid region file!") ∧
    (∀ f : PFile, 8192 ≤ f.size → f.size % 4096 = 0 →
      RegionFile.init f = Except.ok (RegionFile.stateOf f)) := by
  constructor
  · intro f h
    rw [RegionFile.init, if_pos h]
  · intro f h1 h2
    rw [RegionFile.init, if_neg (by omega)]

/-- Witness for C3 at sizes 8191 (rejected) and 8192 (accepted). -/
theorem init_size_validation_witness :
    ((zeroFile 8191).size < 8192 ∨ (zeroFile 8191).size % 4096 ≠ 0) ∧
    RegionFile.init (zeroFile 8191) = Except.error "Invalid region file!" ∧
    8192 ≤ (zeroFile 8192).size ∧ (zeroFile 8192).size % 4096 = 0 ∧
    RegionFile.init (zeroFile 8192) = Except.ok (RegionFile.stateOf (zeroFile 8192)) :=
  ⟨Or.inl (by decide), init_size_validation.1 _ (Or.inl (by decide)),
   by decide, by decide, init_size_validation.2 _ (by decide) (by decide)⟩

/-- C3 counterexample: the error raised for an 8191-byte file (and equally a
4097-byte file) is the fixed digit-free string `Invalid region file!`, so it
cannot name the actual size as the claim asserts. -/
theorem init_error_never_names_size :
    RegionFile.init (zeroFile 8191) = Except.error "Invalid region file!" ∧
    RegionFile.init (zeroFile 4097) = Except.error "Invalid region file!" ∧
    "Invalid region file!".toList.any Char.isDigit = false :=
  ⟨rfl, rfl, by decide⟩

/-- C7 (amended): calling delete_sector with a slot index outside [0,1024)
is silently swallowed as a no-op — the range check has no else branch, so the
call returns normally, raises nothing, and leaves the state unchanged. -/
theorem delete_sector_oob_silent (st : RegionState) (index : Int)
    (h : index < 0 ∨ 1024 ≤ index) :
    RegionFile.delete_sector st index false = Except.ok st := by
  rw [RegionFile.delete_sector, if_neg (by omega)]

/-- Witness for C7 at index 1024 on a freshly opened empty region file. -/
theorem delete_sector_oob_silent_witness :
    ((1024 : Int) < 0 ∨ 1024 ≤ (1024 : Int)) ∧
    RegionFile.delete_sector (RegionFile.stateOf (zeroFile 8192)) 1024 false =
      Except.ok (RegionFile.stateOf (zeroFile 8192)) :=
  ⟨Or.inr (by decide), delete_sector_oob_silent _ 1024 (Or.inr (by decide))⟩

/-- C7 counterexample: delete_sector at the out-of-range index -1 returns
normally with the state unchanged instead of surfacing an OutOfRangeSlot
error. -/
theorem delete_sector_oob_no_error :
    RegionFile.delete_sector (RegionFile.stateOf (zeroFile 8192)) (-1) false =
      Except.ok (RegionFile.stateOf (zeroFile 8192)) := rfl

/-- C6 (code bug): on a region file whose slot 0 holds Sector(2, 1), the
first delete_sector(0) call raises AttributeError (the `sect != None` test
invokes `Sector.__eq__` with `None`, which reads `None.offset`) rather than
deleting the slot without error as the claim states; the slot remains present
(`has_chunk` still true).  On an empty slot the call is indeed an errorless
no-op. -/
theorem delete_sector_occupied_raises :
    RegionFile.init fOcc = Except.ok (RegionFile.stateOf fOcc) ∧
    (RegionFile.stateOf fOcc).chunks.getD 0 none = some ⟨2, 1⟩ ∧
    RegionFile.delete_sector (RegionFile.stateOf fOcc) 0 false =
      Except.error "AttributeError: 'NoneType' object has no attribute 'offset'" ∧
    RegionFile.has_chunk (RegionFile.stateOf fOcc) 0 0 = true :=
  ⟨rfl, by decide, rfl, by decide⟩

/-- C10: has_chunk is true iff the 3-byte on-disk offset of the slot is
nonzero, regardless of the count byte; consequently a slot whose entry has
offset 1 (file `fOff1`) or offset 2 with count 0 (file `fCnt0`) reads as
present via has_chunk even though opening the same file leaves that index
slot empty. -/
theorem has_chunk_reads_offset_only :
    (∀ (st : RegionState) (x z : Int),
      RegionFile.has_chunk st x z = true ↔
        fromBytesBE (st.file.readAt (((x % 32) + (z % 32) * 32).toNat * 4) 3) ≠ 0) ∧
    (RegionFile.has_chunk (RegionFile.stateOf fOff1) 0 0 = true ∧
      (RegionFile.stateOf fOff1).chunks.getD 0 none = none) ∧
    (RegionFile.has_chunk (RegionFile.stateOf fCnt0) 0 0 = true ∧
      (RegionFile.stateOf fCnt0).chunks.getD 0 none = none) := by
  refine ⟨?_, ⟨by decide, by decide⟩, ⟨by decide, by decide⟩⟩
  intro st x z
  simp [RegionFile.has_chunk]

/-- C5 (amended): when read_chunk_raw reads a stored record whose 1-byte
compression tag is not 1, 2 or 3, it returns None — the normal absent result —
without raising any error: the unrecognized tag matches no branch of the
if/elif chain and the function falls off the end. -/
theorem read_chunk_raw_unknown_tag (zlibD gzipD : List Nat → Except String (List Nat))
    (st : RegionState) (x z : Int) (off tag : Nat)
    (hoffdef : fromBytesBE (st.file.readAt (((x % 32) + (z % 32) * 32).toNat * 4) 3) = off)
    (htagdef : fromBytesBE (st.file.readAt (off * 4096 + 4) 1) = tag)
    (hoff : off ≠ 0) (h1 : tag ≠ 1) (h2 : tag ≠ 2) (h3 : tag ≠ 3) :
    RegionFile.read_chunk_raw zlibD gzipD st x z = Except.ok none := by
  rw [RegionFile.read_chunk_raw]
  simp only [hoffdef, htagdef]
  rw [if_neg hoff, if_neg h2, if_neg h1, if_neg h3]

/-- Witness for C5 on the file `fTag4`, whose stored record carries tag 4. -/
theorem read_chunk_raw_unknown_tag_witness :
    fromBytesBE ((RegionFile.stateOf fTag4).file.readAt
      ((((0 : Int) % 32) + ((0 : Int) % 32) * 32).toNat * 4) 3) = 2 ∧
    fromBytesBE ((RegionFile.stateOf fTag4).file.readAt (2 * 4096 + 4) 1) = 4 ∧
    RegionFile.read_chunk_raw (fun b => Except.ok b) (fun b => Except.ok b)
      (RegionFile.stateOf fTag4) 0 0 = Except.ok none :=
  ⟨by decide, by decide,
   read_chunk_raw_unknown_tag _ _ _ 0 0 2 4 (by decide) (by decide) (by decide)
     (by decide) (by decide) (by decide)⟩

/-- C5 counterexample: on the file `fTag4` the stored record's tag is 4,
yet read_chunk_raw returns the normal result `none` instead of raising a
CorruptContainer error as the claim asserts. -/
theorem read_chunk_raw_unknown_tag_example :
    fromBytesBE ((RegionFile.stateOf fTag4).file.readAt (2 * 4096 + 4) 1) = 4 ∧
    RegionFile.read_chunk_raw (fun b => Except.ok b) (fun b => Except.ok b)
      (RegionFile.stateOf fTag4) 0 0 = Except.ok none :=
  ⟨rfl, rfl⟩

/-- C4 (amended): on open, slot i is left empty exactly when the entry's
offset is below 2 — so offset 0 or offset 1, regardless of count — or its
count is 0; every entry with offset >= 2 and count > 0 populates index[i]
with Sector(offset, count), which is also inserted into the sectors list.
(The claim said an entry with offset == 1 and count > 0 populates the slot;
the code's `offset >= 2` test treats it as absent.) -/
theorem init_entry_parsing (f : PFile) (st : RegionState) (i : Nat)
    (hst : RegionFile.init f = Except.ok st) (hi : i < 1024) :
    st.chunks.getD i none = RegionFile.slotOf f i ∧
    (st.chunks.getD i none = none ↔
      ((RegionFile.readEntry f i).1 < 2 ∨ (RegionFile.readEntry f i).2 = 0)) ∧
    (∀ s, RegionFile.slotOf f i = some s → s ∈ st.sectors) := by
  rw [RegionFile.init] at hst
  split at hst
  · cases hst
  · injection hst with hst'
    subst hst'
    have hget : (RegionFile.stateOf f).chunks.getD i none = RegionFile.slotOf f i := by
      simp [RegionFile.stateOf, List.getD_eq_getElem?_getD, List.getElem?_map,
        List.getElem?_range, hi]
    refine ⟨hget, ?_, ?_⟩
    · rw [hget, RegionFile.slotOf]
      split <;> rename_i hc
      · simp only [reduceCtorEq, false_iff]
        omega
      · simp only [true_iff]
        omega
    · intro s hs
      show s ∈ RegionFile.sectorsOf f
      rw [RegionFile.sectorsOf]
      exact (mem_foldl_slot f s (List.range 1024) [⟨0, 2⟩]).mpr
        (Or.inr ⟨i, List.mem_range.mpr hi, hs⟩)

/-- Witness for C4 at slot 0 of the file `fOcc`, whose entry is Sector(2, 1). -/
theorem init_entry_parsing_witness :
    RegionFile.init fOcc = Except.ok (RegionFile.stateOf fOcc) ∧ 0 < 1024 ∧
    ((RegionFile.stateOf fOcc).chunks.getD 0 none = RegionFile.slotOf fOcc 0 ∧
     ((RegionFile.stateOf fOcc).chunks.getD 0 none = none ↔
       ((RegionFile.readEntry fOcc 0).1 < 2 ∨ (RegionFile.readEntry fOcc 0).2 = 0)) ∧
     (∀ s, RegionFile.slotOf fOcc 0 = some s → s ∈ (RegionFile.stateOf fOcc).sectors)) :=
  ⟨rfl, by decide, init_entry_parsing fOcc (RegionFile.stateOf fOcc) 0 rfl (by decide)⟩

/-- C4 counterexample: opening the file `fOff1`, whose slot-0 entry has
offset 1 and count 1, leaves index slot 0 empty, contradicting the claim that
such an entry populates the slot. -/
theorem init_offset_one_left_empty :
    RegionFile.init fOff1 = Except.ok (RegionFile.stateOf fOff1) ∧
    RegionFile.readEntry fOff1 0 = (1, 1) ∧
    (RegionFile.stateOf fOff1).chunks.getD 0 none = none :=
  ⟨rfl, by decide, by decide⟩

lemma chain'_offset_le : ∀ (rest : List Sector) (b : Sector),
    List.Chain' sectBefore (b :: rest) → ∀ t ∈ b :: rest, b.offset ≤ t.offset := by
  intro rest
  induction rest with
  | nil =>
    intro b _ t ht
    rcases List.mem_singleton.mp ht with rfl
    exact Nat.le_refl _
  | cons c cs ih =>
    intro b hc t ht
    rcases List.mem_cons.mp ht with rfl | ht'
    · exact Nat.le_refl _
    · have h1 : sectBefore b c := (List.chain'_cons.mp hc).1
      have h2 := ih c (List.chain'_cons.mp hc).2 t ht'
      unfold sectBefore at h1
      omega

lemma firstFit_ge (cnt : Nat) : ∀ (l : List Sector) (a : Sector),
    List.Chain' sectBefore (a :: l) → a.offset + a.count ≤ firstFit cnt a l := by
  intro l
  induction l with
  | nil => intro a _; exact Nat.le_refl _
  | cons b rest ih =>
    intro a hc
    rw [firstFit]
    split
    · exact Nat.le_refl _
    · have h1 : sectBefore a b := (List.chain'_cons.mp hc).1
      have h2 := ih b (List.chain'_cons.mp hc).2
      unfold sectBefore at h1
      omega

lemma firstFit_sep (cnt : Nat) : ∀ (l : List Sector) (a : Sector),
    List.Chain' sectBefore (a :: l) →
    ∀ t ∈ a :: l,
      t.offset + t.count ≤ firstFit cnt a l ∨ firstFit cnt a l + cnt ≤ t.offset := by
  intro l
  induction l with
  | nil =>
    intro a _ t ht
    rcases List.mem_singleton.mp ht with rfl
    exact Or.inl (Nat.le_refl _)
  | cons b rest ih =>
    intro a hc t ht
    have h1 : sectBefore a b := (List.chain'_cons.mp hc).1
    have hc' := (List.chain'_cons.mp hc).2
    rw [firstFit]
    split <;> rename_i hfit
    · rcases List.mem_cons.mp ht with rfl | ht'
      · exact Or.inl (Nat.le_refl _)
      · have hb : b.offset ≤ t.offset := chain'_offset_le rest b hc' t ht'
        right
        omega
    · rcases List.mem_cons.mp ht with rfl | ht'
      · left
        have h2 := firstFit_ge cnt rest b hc'
        unfold sectBefore at h1
        omega
      · exact ih b hc' t ht'

lemma firstFit_min (cnt : Nat) : ∀ (l : List Sector) (a : Sector),
    List.Chain' sectBefore (a :: l) →
    ∀ p : Nat, a.offset + a.count ≤ p →
    (∀ t ∈ a :: l, t.offset + t.count ≤ p ∨ p + cnt ≤ t.offset) →
    firstFit cnt a l ≤ p := by
  intro l
  induction l with
  | nil => intro a _ p hp _; exact hp
  | cons b rest ih =>
    intro a hc p hp hsep
    have hc' := (List.chain'_cons.mp hc).2
    rw [firstFit]
    split <;> rename_i hfit
    · exact hp
    · have hb := hsep b (List.mem_cons_of_mem _ (List.mem_cons_self _ _))
      have hbe : b.offset + b.count ≤ p := by
        rcases hb with h | h
        · exact h
        · exfalso; omega
      refine ih b hc' p hbe ?_
      intro t ht
      exact hsep t (List.mem_cons_of_mem _ ht)

lemma findGap_spec (cnt : Nat) : ∀ (l : List Sector) (a : Sector),
    RegionFile.findGap cnt (a :: l) = some ⟨firstFit cnt a l, cnt⟩ ∨
    (RegionFile.findGap cnt (a :: l) = none ∧
      ∃ t, (a :: l).getLast? = some t ∧ firstFit cnt a l = t.offset + t.count) := by
  intro l
  induction l with
  | nil =>
    intro a
    right
    exact ⟨rfl, a, rfl, rfl⟩
  | cons b rest ih =>
    intro a
    by_cases hfit : (cnt : Int) ≤ (b.offset : Int) - ((a.offset : Int) + (a.count : Int))
    · left
      rw [RegionFile.findGap, firstFit, if_pos hfit, if_pos hfit]
    · rw [RegionFile.findGap, firstFit, if_neg hfit, if_neg hfit, List.getLast?_cons_cons]
      exact ih b

lemma get_free_spec (sz : Nat) (l : List Sector) (a : Sector) :
    RegionFile.get_free (a :: l) sz true =
      some (⟨firstFit ((sz + 4095) / 4096) a l, (sz + 4095) / 4096⟩,
        insort ⟨firstFit ((sz + 4095) / 4096) a l, (sz + 4095) / 4096⟩ (a :: l)) := by
  rcases findGap_spec ((sz + 4095) / 4096) l a with h | ⟨h, t, hlast, hff⟩
  · rw [RegionFile.get_free, h]
    simp
  · rw [RegionFile.get_free, h, hlast, hff]
    simp

lemma insort_head_cases (x : Sector) : ∀ l : List Sector,
    (insort x l).head? = some x ∨ (insort x l).head? = l.head? := by
  intro l
  cases l with
  | nil => left; rfl
  | cons y ys =>
    rw [insort]
    split
    · left; rfl
    · right; rfl

lemma chain'_insort (x : Sector) : ∀ l : List Sector,
    List.Chain' sectBefore l →
    (∀ t ∈ l, sectBefore x t ∨ sectBefore t x) →
    List.Chain' sectBefore (insort x l) := by
  intro l
  induction l with
  | nil => intro _ _; exact List.chain'_singleton x
  | cons y ys ih =>
    intro hc htot
    rw [insort]
    split <;> rename_i hxy
    · exact List.chain'_cons.mpr ⟨by simpa [Sector.lt, sectBefore] using hxy, hc⟩
    · have hyx : sectBefore y x := by
        rcases htot y (List.mem_cons_self _ _) with h | h
        · exact absurd (by simpa [Sector.lt, sectBefore] using h) hxy
        · exact h
      have hc2 : List.Chain' sectBefore (insort x ys) :=
        ih (List.chain'_cons'.mp hc).2 (fun t ht => htot t (List.mem_cons_of_mem _ ht))
      rw [List.chain'_cons']
      refine ⟨?_, hc2⟩
      intro h hh
      rcases insort_head_cases x ys with he | he
      · rw [he] at hh
        rcases Option.mem_some_iff.mp hh with rfl
        exact hyx
      · rw [he] at hh
        exact (List.chain'_cons'.mp hc).1 h hh

lemma intersects_eq_false (a b : Sector)
    (h : a.offset + a.count ≤ b.offset ∨ b.offset + b.count ≤ a.offset)
    (ha : 0 < a.count) (hb : 0 < b.count) :
    a.intersects b = false := by
  simp only [Sector.intersects, Bool.or_eq_false_iff, Bool.and_eq_false_iff,
    decide_eq_false_iff_not, not_le, not_lt]
  omega

lemma sep_of_intersects_eq_false (a b : Sector) (h : a.intersects b = false) :
    a.offset + a.count ≤ b.offset ∨ b.offset + b.count ≤ a.offset := by
  simp only [Sector.intersects, Bool.or_eq_false_iff, Bool.and_eq_false_iff,
    decide_eq_false_iff_not, not_le, not_lt] at h
  omega

/-- C2: under the allocator invariant (sectors sorted, pairwise disjoint,
seeded with the header sector Sector(0,2), all counts positive), get_free
returns a sector of ceil(size/4096) pages that intersects no sector already
in the list, whose offset is at least 2 and is the smallest page offset >= 2
at which the requested span overlaps no existing sector (first fit); the
invariant is preserved and the new list is exactly the old one plus the
returned sector, so the property holds along any sequence of allocations
with no deletions.  On the sectors list of a freshly created all-zero
8192-byte file, allocate(4096) returns Sector(2, 1). -/
theorem get_free_correct :
    (∀ (secs : List Sector) (sz : Nat) (s : Sector) (secs' : List Sector),
      AllocInv secs → 0 < sz →
      RegionFile.get_free secs sz true = some (s, secs') →
      s.count = (sz + 4095) / 4096 ∧
      (∀ t ∈ secs, s.intersects t = false) ∧
      2 ≤ s.offset ∧
      (∀ p : Nat, 2 ≤ p → (∀ t ∈ secs, (Sector.mk p s.count).intersects t = false) →
        s.offset ≤ p) ∧
      AllocInv secs' ∧
      (∀ t : Sector, t ∈ secs' ↔ t = s ∨ t ∈ secs)) ∧
    RegionFile.get_free (RegionFile.stateOf (zeroFile 8192)).sectors 4096 true =
      some (⟨2, 1⟩, [⟨0, 2⟩, ⟨2, 1⟩]) := by
  refine ⟨?_, by decide⟩
  intro secs sz s secs' hinv hsz hgf
  obtain ⟨hhead, hchain, hcount⟩ := hinv
  cases secs with
  | nil => simp at hhead
  | cons a l =>
  rw [List.head?_cons, Option.some.injEq] at hhead
  subst hhead
  set cnt := (sz + 4095) / 4096 with hcntdef
  have hcnt1 : 1 ≤ cnt := by omega
  have hspec := get_free_spec sz l (Sector.mk 0 2)
  rw [hgf] at hspec
  have hpair := Option.some.inj hspec
  obtain ⟨hs, hsecs'⟩ := Prod.ext_iff.mp hpair
  set ff := firstFit cnt (Sector.mk 0 2) l with hffdef
  have hsep := firstFit_sep cnt l (Sector.mk 0 2) hchain
  have hge : 2 ≤ ff := firstFit_ge cnt l (Sector.mk 0 2) hchain
  subst hs
  subst hsecs'
  refine ⟨rfl, ?_, hge, ?_, ?_, ?_⟩
  · intro t ht
    exact intersects_eq_false _ t ((hsep t ht).symm) hcnt1 (hcount t ht)
  · intro p hp2 hpsep
    refine firstFit_min cnt l (Sector.mk 0 2) hchain p hp2 ?_
    intro t ht
    exact (sep_of_intersects_eq_false _ t (hpsep t ht)).symm
  · have hlt : (Sector.mk ff cnt).lt (Sector.mk 0 2) = false := by
      simp [Sector.lt]
      omega
    constructor
    · rw [insort, hlt]
      simp
    constructor
    · refine chain'_insort _ _ hchain ?_
      intro t ht
      rcases hsep t ht with h | h
      · exact Or.inr h
      · exact Or.inl h
    · intro t ht
      rcases (insort_mem _ t _).mp ht with rfl | ht'
      · exact hcnt1
      · exact hcount t ht'
  · intro t
    exact insort_mem _ t _

/-- Witness for C2: allocating 4096 bytes from the fresh list [Sector(0,2)]. -/
theorem get_free_correct_witness :
    AllocInv [Sector.mk 0 2] ∧ 0 < 4096 ∧
    RegionFile.get_free [Sector.mk 0 2] 4096 true =
      some (Sector.mk 2 1, [Sector.mk 0 2, Sector.mk 2 1]) ∧
    ((Sector.mk 2 1).count = (4096 + 4095) / 4096 ∧
     (∀ t ∈ [Sector.mk 0 2], (Sector.mk 2 1).intersects t = false) ∧
     2 ≤ (Sector.mk 2 1).offset ∧
     (∀ p : Nat, 2 ≤ p →
        (∀ t ∈ [Sector.mk 0 2], (Sector.mk p (Sector.mk 2 1).count).intersects t = false) →
        (Sector.mk 2 1).offset ≤ p) ∧
     AllocInv [Sector.mk 0 2, Sector.mk 2 1] ∧
     (∀ t : Sector, t ∈ [Sector.mk 0 2, Sector.mk 2 1] ↔
        t = Sector.mk 2 1 ∨ t ∈ [Sector.mk 0 2])) :=
  have hinv : AllocInv [Sector.mk 0 2] :=
    ⟨rfl, List.chain'_singleton _, by
      intro t ht
      rcases List.mem_singleton.mp ht with rfl
      decide⟩
  ⟨hinv, by decide, by decide,
   get_free_correct.1 [Sector.mk 0 2] 4096 (Sector.mk 2 1) [Sector.mk 0 2, Sector.mk 2 1]
     hinv (by decide) (by decide)⟩

lemma writeAt_truncate_size (f : PFile) (bs : List Nat) (pos : Nat) :
    ((PFile.truncate f).writeAt pos bs).size = pos + bs.length := by
  simp [PFile.writeAt, PFile.truncate]

lemma writeAt_truncate_data_low (f : PFile) (bs : List Nat) (pos i : Nat) (h : i < pos) :
    ((PFile.truncate f).writeAt pos bs).data i = 0 := by
  rw [PFile.writeAt]
  show (if pos ≤ i ∧ i < pos + bs.length then bs.getD (i - pos) 0
        else if i < (PFile.truncate f).size then (PFile.truncate f).data i else 0) = 0
  rw [if_neg (by omega), if_neg (by simp [PFile.truncate])]

lemma readAt3_low (f : PFile) (bs : List Nat) :
    ((PFile.truncate f).writeAt (2 * 4096) bs).readAt 0 3 = [0, 0, 0] := by
  rw [PFile.readAt, show List.range 3 = [0, 1, 2] from rfl]
  rw [List.filterMap_cons, List.filterMap_cons, List.filterMap_cons, List.filterMap_nil]
  rw [if_pos (by rw [writeAt_truncate_size]; omega),
      if_pos (by rw [writeAt_truncate_size]; omega),
      if_pos (by rw [writeAt_truncate_size]; omega)]
  rw [writeAt_truncate_data_low f bs (2 * 4096) (0 + 0) (by omega),
      writeAt_truncate_data_low f bs (2 * 4096) (0 + 1) (by omega),
      writeAt_truncate_data_low f bs (2 * 4096) (0 + 2) (by omega)]

lemma read_chunk_tag_zero_offset {Doc : Type} (zlibD gzipD : List Nat → Except String (List Nat))
    (load : List Nat → Except String Doc) (st : RegionState)
    (h : fromBytesBE (st.file.readAt 0 3) = 0) :
    RegionFile.read_chunk_tag zlibD gzipD load st 0 0 = Except.ok none := by
  rw [RegionFile.read_chunk_tag]
  simp [h]

lemma st0_slot0_empty :
    (RegionFile.stateOf (zeroFile 8192)).chunks.getD
      ((((0 : Int) % 32) + ((0 : Int) % 32) * 32).toNat) none = none := by decide

lemma st0_sectors_eq : (RegionFile.stateOf (zeroFile 8192)).sectors = [⟨0, 2⟩] := by decide

lemma write_chunk_data_typeerror (st : RegionState) (cd : List Nat)
    (h1 : st.chunks.getD ((((0 : Int) % 32) + ((0 : Int) % 32) * 32).toNat) none = none)
    (h2 : st.sectors = [⟨0, 2⟩]) :
    RegionFile.write_chunk_data st 0 0 cd =
      Except.error "TypeError: to_bytes() takes at most 2 positional arguments (3 given)" := by
  simp only [RegionFile.write_chunk_data]
  split <;> rename_i heq
  · rw [h1] at heq
    cases heq
  · rw [h2, get_free_spec]

lemma write_chunk_data_lenient_spec (st : RegionState) (cd : List Nat)
    (h1 : st.chunks.getD ((((0 : Int) % 32) + ((0 : Int) % 32) * 32).toNat) none = none)
    (h2 : st.sectors = [⟨0, 2⟩]) :
    RegionFile.write_chunk_data_lenient st 0 0 cd = Except.ok
      { file := (PFile.truncate st.file).writeAt (2 * 4096)
          (toBytesBE (cd.length + 1) 4 ++ [2] ++
            List.replicate ((cd.length + 5 + 4095) / 4096 * 4096 - (cd.length + 5)) 0),
        chunks := st.chunks,
        sectors := insort ⟨2, (cd.length + 5 + 4095) / 4096⟩ [⟨0, 2⟩] } := by
  have hff : firstFit ((cd.length + 5 + 4095) / 4096) (Sector.mk 0 2) [] = 2 := rfl
  simp only [RegionFile.write_chunk_data_lenient, h1, Option.isSome_none, Bool.false_eq_true,
    if_false, Except.bind, h2, get_free_spec, hff]

lemma read_after_truncate_write {Doc : Type}
    (zlibD gzipD : List Nat → Except String (List Nat))
    (load : List Nat → Except String Doc) (st : RegionState) (g : PFile) (bs : List Nat)
    (hf : st.file = (PFile.truncate g).writeAt (2 * 4096) bs) :
    RegionFile.read_chunk_tag zlibD gzipD load st 0 0 = Except.ok none := by
  apply read_chunk_tag_zero_offset
  rw [hf, readAt3_low]
  rfl

lemma except_bind_ok {ε α β : Type} (a : α) (f : α → Except ε β) :
    (Except.ok a : Except ε α).bind f = f a := rfl

set_option maxHeartbeats 1000000 in
/-- C1 (code bug): the write/read round trip fails on a fresh region file.
First conjunct: write_chunk_tag itself raises TypeError — line 191 passes the
keyword-only `signed` parameter of `int.to_bytes` positionally — after the
`'wb'` open has already truncated the file.  Second conjunct: even under the
lenient reading in which the length/tag/padding writes all execute, the
compressed payload is never written and the location table is never updated,
so a subsequent read_chunk_tag finds table offset 0 and returns None (absent)
rather than a document equal to the one written. -/
theorem write_then_read_roundtrip_fails {Doc : Type}
    (compress : List Nat → List Nat) (dump : Doc → List Nat)
    (zlibD gzipD : List Nat → Except String (List Nat))
    (load : List Nat → Except String Doc) (d : Doc) :
    RegionFile.write_chunk_tag compress dump (RegionFile.stateOf (zeroFile 8192)) 0 0 d =
      Except.error "TypeError: to_bytes() takes at most 2 positional arguments (3 given)" ∧
    (RegionFile.write_chunk_data_lenient (RegionFile.stateOf (zeroFile 8192)) 0 0
        (compress (dump d))).bind
      (fun st1 => RegionFile.read_chunk_tag zlibD gzipD load st1 0 0) = Except.ok none := by
  constructor
  · exact write_chunk_data_typeerror _ _ st0_slot0_empty st0_sectors_eq
  · rw [write_chunk_data_lenient_spec _ _ st0_slot0_empty st0_sectors_eq, except_bind_ok]
    exact read_after_truncate_write zlibD gzipD load _ _ _ rfl
